import Mathlib

/-
Verification development for the local-ai-notetaker pipeline.

Shallow embedding of the functions under scrutiny:
  * src/transcription.py        : interleave_transcripts, transcribe_audio_multi,
                                  save_transcript_to_file
  * src/lain/convert_audio_files.py : get_recordings_dict, combine_audio_files,
                                  concat_wavs_copy
  * src/lain/ollama_notes.py    : notes_json_to_markdown

Modelling conventions:
  * Python dicts are modelled as association lists in insertion order
    (CPython dicts iterate in insertion order).
  * Python str values are Lean String values; string comparison and strip are
    re-implemented on the character list so that the kernel can evaluate them.
  * External effects (ffmpeg, cp, the filesystem) are modelled by an explicit
    set of existing paths (List String) plus an event log (List Ev).
  * datetime values are modelled in two ways, matching what each function needs:
    as points on an integer time axis where only addition of seconds matters
    (transcribe_audio_multi), and as calendar records where only field
    formatting matters (save_transcript_to_file).  Fractional seconds are
    abstracted to integers; only ordering and addition are relevant.
-/

/-! ## Python string primitives -/

/-- Lexicographic comparison of character lists by code point, the ordering
Python uses for str; total and kernel-computable. -/
def charListLe : List Char → List Char → Bool
  | [], _ => true
  | _ :: _, [] => false
  | a :: as, b :: bs =>
    if a.toNat < b.toNat then true
    else if b.toNat < a.toNat then false
    else charListLe as bs

/-- Python str ordering as a proposition, for use with insertionSort. -/
def py_str_le (a b : String) : Prop := charListLe a.data b.data = true

instance : DecidableRel py_str_le :=
  fun a b => inferInstanceAs (Decidable (charListLe a.data b.data = true))

/-- Python str.strip with no arguments: drop leading and trailing whitespace. -/
def py_strip (s : String) : String :=
  String.mk (((s.data.dropWhile Char.isWhitespace).reverse.dropWhile Char.isWhitespace).reverse)

/-- Model of os.path.basename: the part of the path after the last slash. -/
def basename (p : String) : String :=
  String.mk ((p.data.reverse.takeWhile (fun c => c != '/')).reverse)

/-- Model of posixpath.dirname: the path up to the last slash, with trailing
slashes stripped unless the head is empty or all slashes. -/
def dirname (p : String) : String :=
  let cs := p.data
  let headLen := cs.length - (cs.reverse.takeWhile (fun c => c != '/')).length
  let head := cs.take headLen
  if head.isEmpty || head.all (fun c => c == '/') then String.mk head
  else String.mk ((head.reverse.dropWhile (fun c => c == '/')).reverse)

/-- Model of posixpath.join for two components. -/
def path_join (a b : String) : String :=
  if (match b.data with | c :: _ => c == '/' | [] => false) then b
  else if a.data.isEmpty || (a.data.getLast? == some '/') then a ++ b
  else a ++ "/" ++ b

/-! ## transcription.py: interleave_transcripts (claim C1) -/

/-- A transcript segment as built by transcribe_audio_multi and consumed by
interleave_transcripts.  Timestamps are modelled as integers: the function
only compares them.  The Python dict key end is a reserved word in Lean, so
the field is called stop. -/
structure Seg where
  start : Int
  stop : Int
  text : String
  speaker : String
deriving Repr, DecidableEq

/-- The flattening loop of interleave_transcripts: iterate the speaker map in
insertion order, append every segment of every speaker, rebuilding each dict
with the speaker field taken from the map key (as the source does). -/
def flatten_transcriptions (transcriptions : List (String × List Seg)) : List Seg :=
  (transcriptions.map (fun p => p.2.map (fun s =>
    { start := s.start, stop := s.stop, text := s.text, speaker := p.1 }))).flatten

/-- The sort key relation of all_segments.sort(key=lambda x: x[start-key]). -/
def segLE (a b : Seg) : Prop := a.start ≤ b.start

instance : DecidableRel segLE :=
  fun a b => inferInstanceAs (Decidable (a.start ≤ b.start))

instance : IsTotal Seg segLE := ⟨fun a b => Int.le_total a.start b.start⟩

instance : IsTrans Seg segLE := ⟨fun _ _ _ h1 h2 => le_trans h1 h2⟩

/-- interleave_transcripts: flatten all per-speaker lists, then sort by start.
Python list.sort is a stable sort; a stable sort is extensionally unique, so it
is modelled by the stable List.insertionSort. -/
def interleave_transcripts (transcriptions : List (String × List Seg)) : List Seg :=
  List.insertionSort segLE (flatten_transcriptions transcriptions)

/-! ## transcription.py: transcribe_audio_multi anchoring (claim C5) -/

/-- A segment timestamp after the anchoring step of transcribe_audio_multi:
either an absolute datetime (a point on an integer seconds axis) or a raw
relative offset in seconds. -/
inductive TS where
  | dt (t : Int)
  | sec (s : Int)
deriving Repr, DecidableEq

/-- One raw segment of the ASR output (output[0].timestamp, key segment),
with start and end offsets in seconds and the recognized text. -/
structure RawSeg where
  start : Int
  stop : Int
  segment : String
deriving Repr, DecidableEq

/-- A segment produced by transcribe_audio_multi. -/
structure SegA where
  start : TS
  stop : TS
  text : String
  speaker : String
deriving Repr, DecidableEq

/-- Truthiness of a Python datetime object: datetime instances are always
truthy, so the test if meeting_start_time: is constantly true once the value
is a datetime. -/
def datetime_truthy (_ : Int) : Bool := true

/-- The segment-building logic of transcribe_audio_multi for one speaker,
source lines 83-86 and 120-140.  The ASR model, VAD and the iteration over
speakers are external effects; raw stands for the segment list the model
returned and now_midnight for datetime.now() with the time fields zeroed.
The None default is replaced by now_midnight at entry, exactly as in the
source, before the per-segment branch runs. -/
def transcribe_audio_multi_segments (now_midnight : Int) (meeting_start_time : Option Int)
    (raw : List RawSeg) (speaker : String) : List SegA :=
  let mst : Int :=
    match meeting_start_time with
    | none => now_midnight
    | some t => t
  raw.map (fun seg =>
    if datetime_truthy mst then
      { start := TS.dt (mst + seg.start), stop := TS.dt (mst + seg.stop),
        text := py_strip seg.segment, speaker := speaker }
    else
      { start := TS.sec seg.start, stop := TS.sec seg.stop,
        text := py_strip seg.segment, speaker := speaker })

/-! ## transcription.py: save_transcript_to_file (claims C6, C7, C10) -/

/-- A Python datetime as a calendar record; only field formatting matters to
the serializer. -/
structure PyDateTime where
  year : Nat
  month : Nat
  day : Nat
  hour : Nat
  minute : Nat
  second : Nat
deriving Repr, DecidableEq

/-- A segment timestamp as the serializer sees it: a datetime (isinstance
check true) or a plain number of seconds. -/
inductive PyTime where
  | dt (d : PyDateTime)
  | sec (s : Nat)
deriving Repr, DecidableEq

/-- A segment as consumed by save_transcript_to_file. -/
structure SegT where
  start : PyTime
  stop : PyTime
  text : String
  speaker : String
deriving Repr, DecidableEq

/-- Zero-pad a number to two digits, as the %H %M %S directives do. -/
def pad2 (n : Nat) : String := if n < 10 then "0" ++ toString n else toString n

/-- Zero-pad a year to four digits, as the %Y directive does. -/
def pad4 (n : Nat) : String :=
  if n < 10 then "000" ++ toString n
  else if n < 100 then "00" ++ toString n
  else if n < 1000 then "0" ++ toString n
  else toString n

/-- strftime with format %H:%M:%S. -/
def strftime_hms (d : PyDateTime) : String :=
  pad2 d.hour ++ ":" ++ pad2 d.minute ++ ":" ++ pad2 d.second

/-- strftime with format %Y-%m-%d %H:%M:%S. -/
def strftime_date_time (d : PyDateTime) : String :=
  pad4 d.year ++ "-" ++ pad2 d.month ++ "-" ++ pad2 d.day ++ " " ++ strftime_hms d

/-- str(timedelta(seconds=s)) for a nonnegative whole number of seconds:
hours unpadded, minutes and seconds two digits, with a day prefix past 24h. -/
def str_timedelta (s : Nat) : String :=
  let days := s / 86400
  let rest := s % 86400
  let hms := toString (rest / 3600) ++ ":" ++ pad2 (rest % 3600 / 60) ++ ":" ++ pad2 (rest % 60)
  if days == 0 then hms
  else if days == 1 then "1 day, " ++ hms
  else toString days ++ " days, " ++ hms

/-- The per-timestamp rendering of the serializer: strftime for datetimes
(isinstance branch), str(timedelta(seconds=x)) for plain numbers. -/
def fmt_time : PyTime → String
  | PyTime.dt d => strftime_hms d
  | PyTime.sec s => str_timedelta s

/-- One transcript body line, mirroring the f-string of the write loop. -/
def seg_line (seg : SegT) : String :=
  "[" ++ fmt_time seg.start ++ " - " ++ fmt_time seg.stop ++ "] (" ++ seg.speaker ++ ") " ++ seg.text

/-- The transcript header line, mirroring the first f.write call. -/
def header_line (t : PyDateTime) : String :=
  "Meeting Start Date and Time: " ++ strftime_date_time t

/-- Write model of save_transcript_to_file (text path; the optional pickle
side file is outside the claims).  The result is the final content of the
target file as a list of lines, plus an error flag.  open(output_file, "w")
truncates the target at once, so initial_content (the pre-existing file) is
discarded unconditionally; with the default start_time=None the header
f-string dereferences None.strftime and raises before anything is written;
otherwise the header and one line per segment are written in order.  The
write loop cannot fail on well-typed segments, so the error flag is false in
that case. -/
def save_transcript_to_file (initial_content : List String) (segments : List SegT)
    (start_time : Option PyDateTime) : List String × Bool :=
  let _ := initial_content
  let opened : List String := []
  match start_time with
  | none => (opened, true)
  | some t =>
    (segments.foldl (fun acc seg => acc ++ [seg_line seg]) (opened ++ [header_line t]), false)

/-! ## ollama_notes.py: notes_json_to_markdown (claim C8) -/

/-- The header object of the structured notes document.  A missing or
JSON-null string field is none; note that Python also treats the empty
string as falsy, which the rendering code tests with plain if. -/
structure NotesHeader where
  date : Option String
  time : Option String
  attendees : List String
  subject : Option String
deriving Repr, DecidableEq

/-- One topic object of the structured notes document. -/
structure Topic where
  title : Option String
  time_range : Option String
  bullets : List String
  conclusion : Option String
deriving Repr, DecidableEq

/-- One action item. -/
structure ActionItem where
  description : Option String
  deadline : Option String
deriving Repr, DecidableEq

/-- One owner group of action items. -/
structure ActionGroup where
  owner : Option String
  items : List ActionItem
deriving Repr, DecidableEq

/-- A structured notes document of the four-part shape.  header = none covers
both an absent key and an empty or null header object (both falsy in Python,
and both render nothing). -/
structure NotesDoc where
  header : Option NotesHeader
  topics : List Topic
  action_items : List ActionGroup
  metanotes : List String
deriving Repr, DecidableEq

/-- Python truthiness of an optional string: None and the empty string are
falsy. -/
def truthyS : Option String → Bool
  | none => false
  | some s => s != ""

/-- The header block of the renderer. -/
def header_lines : Option NotesHeader → List String
  | none => []
  | some h =>
    (if truthyS h.date then ["**Date:** " ++ h.date.getD ""] else [])
    ++ (if truthyS h.time then ["**Time:** " ++ h.time.getD ""] else [])
    ++ (if h.attendees.isEmpty then [] else
        "**Attendees:**" :: h.attendees.map (fun a => "- " ++ a))
    ++ (if truthyS h.subject then ["", "**Subject:** " ++ h.subject.getD ""] else [])

/-- Python enumerate(xs, i). -/
def enumFromNat {α : Type} (i : Nat) : List α → List (Nat × α)
  | [] => []
  | t :: ts => (i, t) :: enumFromNat (i + 1) ts

/-- The lines rendered for one enumerated topic. -/
def topic_lines (p : Nat × Topic) : List String :=
  let title := if truthyS p.2.title then p.2.title.getD "" else "Topic " ++ toString p.1
  let heading := "## " ++ toString p.1 ++ ". " ++ title
    ++ (if truthyS p.2.time_range then " (" ++ p.2.time_range.getD "" ++ ")" else "")
  ["", heading] ++ p.2.bullets.map (fun b => "- " ++ b)
    ++ (if truthyS p.2.conclusion then ["", "**Conclusion:** " ++ p.2.conclusion.getD ""] else [])

/-- The line rendered for one action item. -/
def action_item_line (it : ActionItem) : String :=
  let desc := if truthyS it.description then it.description.getD "" else ""
  if truthyS it.deadline then "  - " ++ desc ++ " (due " ++ it.deadline.getD "" ++ ")"
  else "  - " ++ desc

/-- The lines rendered for one owner group. -/
def action_group_lines (grp : ActionGroup) : List String :=
  ("- **" ++ (if truthyS grp.owner then grp.owner.getD "" else "Unassigned") ++ "**")
    :: grp.items.map action_item_line

/-- notes_json_to_markdown: build the line list exactly as the source does and
join with newlines. -/
def notes_json_to_markdown (data : NotesDoc) : String :=
  let lines := ["# Meeting Notes"]
  let lines := lines ++ header_lines data.header
  let lines := lines ++ (if data.topics.isEmpty then [] else
    ["", "---"] ++ ((enumFromNat 1 data.topics).map topic_lines).flatten)
  let lines := lines ++ (if data.action_items.isEmpty then [] else
    ["", "## Action Items"] ++ (data.action_items.map action_group_lines).flatten)
  let lines := lines ++ (if data.metanotes.isEmpty then [] else
    ["", "## Metanotes"] ++ data.metanotes.map (fun m => "- " ++ m))
  String.intercalate "\n" lines

/-- Emptiness of the header part as the renderer observes it: absent, or an
object none of whose fields is truthy. -/
def headerEmpty : Option NotesHeader → Bool
  | none => true
  | some h => !truthyS h.date && !truthyS h.time && h.attendees.isEmpty && !truthyS h.subject

/-! ## convert_audio_files.py: grouping and recombination (claims C2, C3, C4, C9) -/

/-- Check that the next n characters are digits, returning the rest. -/
def digitsThen : Nat → List Char → Option (List Char)
  | 0, cs => some cs
  | _ + 1, [] => none
  | n + 1, c :: cs => if c.isDigit then digitsThen n cs else none

/-- Check for the literal suffix .wav, case-insensitively (the (?i) flag
covers the literal part of the pattern); re.match only anchors the start, so
trailing characters are allowed. -/
def wavSuffix : List Char → Bool
  | '.' :: w :: a :: v :: _ => w.toLower == 'w' && a.toLower == 'a' && v.toLower == 'v'
  | _ => false

/-- Match the fixed-length tail of the recording pattern: a recording digit, a
duplicate digit, nine magic digits and the .wav suffix.  Returns the
duplicate digit. -/
def checkDigitsWav : List Char → Option Nat
  | r :: d :: rest =>
    if r.isDigit && d.isDigit then
      match digitsThen 9 rest with
      | some rest2 => if wavSuffix rest2 then some (d.toNat - Char.toNat '0') else none
      | none => none
    else none
  | _ => none

/-- The lazy group (?P&lt;name&gt;.+?) of the recording pattern: find the shortest
nonempty name (the dot cannot cross a newline) whose remainder matches the
fixed-length digit tail.  The tail is fixed-length, so shortest-first search
is exactly the lazy backtracking order. -/
def matchAfterAudio (acc : List Char) : List Char → Option (String × Nat)
  | [] => none
  | c :: rest =>
    if c == '\n' then none
    else
      match checkDigitsWav rest with
      | some dup => some (String.mk (acc ++ [c]), dup)
      | none => matchAfterAudio (acc ++ [c]) rest

/-- Model of the regex match in get_recordings_dict: the literal audio prefix
(case-insensitive), then the lazy name, then the digit tail and .wav suffix.
Returns the speaker name and duplicate number. -/
def parse_recording_name (base : String) : Option (String × Nat) :=
  match base.data with
  | a :: u :: d :: i :: o :: rest =>
    if a.toLower == 'a' && u.toLower == 'u' && d.toLower == 'd'
        && i.toLower == 'i' && o.toLower == 'o' then
      matchAfterAudio [] rest
    else none
  | _ => none

/-- The inner Python dict of one speaker: duplicate number to file path, in
insertion order. -/
abbrev PartMap := List (Nat × String)

/-- The outer Python dict: speaker name to part map, in insertion order. -/
abbrev WavDict := List (String × PartMap)

/-- Python dict item assignment on the inner dict: replace in place if the key
exists, else append. -/
def updatePart (m : PartMap) (k : Nat) (v : String) : PartMap :=
  match m with
  | [] => [(k, v)]
  | kv :: rest => if kv.1 = k then (k, v) :: rest else kv :: updatePart rest k v

/-- Python dict item assignment on the outer dict. -/
def updateDict (d : WavDict) (name : String) (dup : Nat) (file : String) : WavDict :=
  match d with
  | [] => [(name, [(dup, file)])]
  | nm :: rest =>
    if nm.1 = name then (nm.1, updatePart nm.2 dup file) :: rest
    else nm :: updateDict rest name dup file

/-- One iteration of the grouping loop of get_recordings_dict: parse the base
name of the file and store it under its speaker and duplicate number; a file
that does not match the pattern raises ValueError, modelled as none. -/
def grd_step (acc : Option WavDict) (file : String) : Option WavDict :=
  match acc with
  | none => none
  | some d =>
    match parse_recording_name (basename file) with
    | some nd => some (updateDict d nd.1 nd.2 file)
    | none => none

/-- get_recordings_dict: sort the file list (wave_files.sort() on str), then
group by parsed speaker name and duplicate number. -/
def get_recordings_dict (wave_files : List String) : Option WavDict :=
  (List.insertionSort py_str_le wave_files).foldl grd_step (some ([] : WavDict))

/-- External invocations made by the combination step: the cp fallback and
the ffmpeg concat demuxer run. -/
inductive Ev where
  | cp (src dst : String)
  | ffmpeg_concat (inputs : List String) (dst : String)
deriving Repr, DecidableEq

/-- concat_wavs_copy over the filesystem model.  Path(p).resolve() is the
identity on the abstract paths.  The single-file branch runs cp but does not
return, so the concat list is written and ffmpeg concat runs unconditionally;
ffmpeg -y then (over)writes the output path. -/
def concat_wavs_copy (fs : List String) (wavs : List String) (dst : String) :
    List String × List Ev :=
  (fs.insert dst,
    (if wavs.length == 1 then [Ev.cp (wavs.headD "") dst] else [])
      ++ [Ev.ffmpeg_concat wavs dst])

/-- The Combined subdirectory next to the first input file:
os.path.join(os.path.dirname(wav_list[0]), "Combined"). -/
def combine_folder_path (wav_list : List String) : String :=
  path_join (dirname (wav_list.headD "")) "Combined"

/-- The cache path of the combined file of one speaker. -/
def combined_file_path (folder name : String) : String :=
  path_join folder ("audio" ++ name ++ "_combined.wav")

/-- files[next(iter(files))]: the value of the first key in insertion order
(on the fast path every part map is a singleton). -/
def wav_dict_single_value (m : PartMap) : String := (m.headD (0, "")).2

/-- files_list = [files[k] for k in sorted(files.keys())]: the part paths in
ascending duplicate-number order. -/
def sorted_parts (m : PartMap) : List String :=
  (List.insertionSort (fun a b : Nat => a ≤ b) (m.map Prod.fst)).map
    (fun k => ((m.find? (fun q => q.1 == k)).getD (0, "")).2)

/-- One iteration of the combining loop of combine_audio_files: record the
cache path in the result mapping, then either skip (cache hit) or invoke
concat_wavs_copy on the parts sorted by duplicate number. -/
def combine_step (folder : String) (acc : List (String × String) × List String × List Ev)
    (p : String × PartMap) : List (String × String) × List String × List Ev :=
  let cfp := combined_file_path folder p.1
  let mapping := acc.1 ++ [(p.1, cfp)]
  if acc.2.1.contains cfp then (mapping, acc.2.1, acc.2.2)
  else
    let r := concat_wavs_copy acc.2.1 (sorted_parts p.2) cfp
    (mapping, r.1, acc.2.2 ++ r.2)

/-- combine_audio_files over the filesystem model: group the files; if every
speaker has exactly one part, return the original paths with no events;
otherwise run the combining loop (os.makedirs has no observable effect in the
model).  Returns the speaker-to-path mapping, the filesystem after the run
and the event log. -/
def combine_audio_files (fs : List String) (wav_list : List String) :
    Option (List (String × String) × List String × List Ev) :=
  match get_recordings_dict wav_list with
  | none => none
  | some wav_dict =>
    if wav_dict.all (fun p => p.2.length == 1) then
      some (wav_dict.map (fun p => (p.1, wav_dict_single_value p.2)), fs, [])
    else
      some (wav_dict.foldl (combine_step (combine_folder_path wav_list)) ([], fs, []))

/-! ## Helper lemmas -/

theorem foldl_append_singleton {α β : Type} (f : α → β) :
    ∀ (l : List α) (init : List β),
      l.foldl (fun acc x => acc ++ [f x]) init = init ++ l.map f
  | [], init => by simp
  | x :: xs, init => by
    simp only [List.foldl_cons, List.map_cons, foldl_append_singleton f xs]
    simp

theorem str_append_cancel_left (a b c : String) (h : a ++ b = a ++ c) : b = c := by
  apply String.ext
  have h2 := congrArg String.data h
  simp only [String.data_append] at h2
  exact List.append_cancel_left h2

theorem str_append_cancel_right (a b c : String) (h : a ++ c = b ++ c) : a = b := by
  apply String.ext
  have h2 := congrArg String.data h
  simp only [String.data_append] at h2
  exact List.append_cancel_right h2

/-! ## Claims C10 and C7: the write model of save_transcript_to_file -/

/-- Claim C10: calling save_transcript_to_file with its default start_time=None
raises while formatting the header line (None.strftime), after the target has
already been opened in truncating write mode: for every segment list the run
errors and leaves the target file empty, so any pre-existing transcript at the
path is destroyed. -/
theorem save_transcript_none_truncates (initial : List String) (segments : List SegT) :
    save_transcript_to_file initial segments none = ([], true)
    ∧ (initial ≠ [] → (save_transcript_to_file initial segments none).1 ≠ initial) := by
  refine ⟨rfl, fun h => ?_⟩
  intro heq
  exact h (heq.symm)

theorem save_transcript_none_truncates_witness :
    save_transcript_to_file ["old line"] [] none = ([], true)
    ∧ (["old line"] : List String) ≠ []
    ∧ (save_transcript_to_file ["old line"] [] none).1 ≠ ["old line"] :=
  ⟨(save_transcript_none_truncates ["old line"] []).1, by decide,
   (save_transcript_none_truncates ["old line"] []).2 (by decide)⟩

/-- Claim C7, evaluated at the failing input: the write is not all-or-nothing.
With a pre-existing transcript at the target and the default None anchor, the
run fails, yet the target has been truncated: the final content is neither the
old file nor a fully written transcript.  The source opens the target with
mode w and writes incrementally, so no scoped all-or-nothing write exists. -/
theorem save_transcript_not_all_or_nothing :
    (save_transcript_to_file ["old transcript line"] [] none).2 = true
    ∧ (save_transcript_to_file ["old transcript line"] [] none).1 = []
    ∧ ([] : List String) ≠ ["old transcript line"] :=
  ⟨rfl, rfl, by decide⟩

/-! ## Claim C6: serialized format -/

/-- Claim C6: with a non-None anchor the serializer writes the header line
built from the anchor via the %Y-%m-%d %H:%M:%S format, then one line per
segment in input order in the bracketed format, with datetime timestamps
rendered as %H:%M:%S and numeric offsets rendered as str(timedelta); the P5
instance produces exactly the expected two lines. -/
theorem save_transcript_format (initial : List String) (segments : List SegT) (t : PyDateTime) :
    save_transcript_to_file initial segments (some t)
      = (header_line t :: segments.map seg_line, false)
    ∧ header_line t = "Meeting Start Date and Time: " ++ strftime_date_time t
    ∧ (∀ seg : SegT, seg_line seg
        = "[" ++ fmt_time seg.start ++ " - " ++ fmt_time seg.stop ++ "] ("
            ++ seg.speaker ++ ") " ++ seg.text)
    ∧ (∀ d : PyDateTime, fmt_time (PyTime.dt d)
        = pad2 d.hour ++ ":" ++ pad2 d.minute ++ ":" ++ pad2 d.second)
    ∧ (∀ s : Nat, fmt_time (PyTime.sec s) = str_timedelta s)
    ∧ save_transcript_to_file []
        [{ start := PyTime.dt ⟨2024, 1, 1, 9, 0, 5⟩, stop := PyTime.dt ⟨2024, 1, 1, 9, 0, 7⟩,
           text := "hi", speaker := "Alice" }] (some ⟨2024, 1, 1, 9, 0, 0⟩)
      = (["Meeting Start Date and Time: 2024-01-01 09:00:00",
          "[09:00:05 - 09:00:07] (Alice) hi"], false)
    ∧ save_transcript_to_file []
        [{ start := PyTime.sec 5, stop := PyTime.sec 67, text := "yo", speaker := "Bob" }]
        (some ⟨2024, 1, 1, 9, 0, 0⟩)
      = (["Meeting Start Date and Time: 2024-01-01 09:00:00",
          "[0:00:05 - 0:01:07] (Bob) yo"], false) := by
  refine ⟨?_, rfl, fun seg => rfl, fun d => rfl, fun s => rfl, by decide, by decide⟩
  simp [save_transcript_to_file, foldl_append_singleton]

/-! ## Claim C5: anchoring in transcribe_audio_multi -/

/-- Claim C5 counterexample: with no anchor supplied the segments do not keep
their model-relative numeric offsets; at the concrete input (midnight 0, raw
segment 5..7) the produced start is the absolute timestamp TS.dt 5, not the
relative offset TS.sec 5, because the None anchor is replaced by the current
date at midnight before the branch runs. -/
theorem transcribe_none_anchor_not_relative :
    ¬ ((transcribe_audio_multi_segments 0 none
          [{ start := 5, stop := 7, segment := "hi" }] "Alice").map SegA.start
        = [TS.sec 5]) := by decide

/-- Claim C5 (amended): each raw segment is anchored by simple addition to the
effective anchor, which is meeting_start_time when supplied and the current
date at midnight otherwise; in both cases the result is an absolute timestamp,
and the relative-offset branch of the source is unreachable. -/
theorem transcribe_audio_multi_anchoring (now_midnight : Int)
    (meeting_start_time : Option Int) (raw : List RawSeg) (speaker : String) :
    transcribe_audio_multi_segments now_midnight meeting_start_time raw speaker
      = raw.map (fun seg =>
          { start := TS.dt ((meeting_start_time.getD now_midnight) + seg.start),
            stop := TS.dt ((meeting_start_time.getD now_midnight) + seg.stop),
            text := py_strip seg.segment, speaker := speaker }) := by
  cases meeting_start_time <;> rfl

/-! ## Claim C8: renderer totality and the empty document -/

/-- Claim C8: the renderer is total on every document of the four-part shape
(it is a total Lean function on NotesDoc), and whenever all four fields are
empty or absent — the header missing or with no truthy field, and the three
lists empty — the output is exactly the single line with the title and no
placeholder text. -/
theorem notes_json_to_markdown_empty (d : NotesDoc)
    (hh : headerEmpty d.header = true) (ht : d.topics = [])
    (ha : d.action_items = []) (hm : d.metanotes = []) :
    notes_json_to_markdown d = "# Meeting Notes" := by
  obtain ⟨header, topics, action_items, metanotes⟩ := d
  simp only at ht ha hm
  subst ht; subst ha; subst hm
  cases header with
  | none => rfl
  | some h =>
    simp only [headerEmpty, Bool.and_eq_true, Bool.not_eq_true'] at hh
    obtain ⟨⟨⟨h1, h2⟩, h3⟩, h4⟩ := hh
    simp [notes_json_to_markdown, header_lines, h1, h2, h3, h4]
    rfl

theorem notes_json_to_markdown_empty_witness :
    headerEmpty (some { date := some "", time := none, attendees := [], subject := none }) = true
    ∧ notes_json_to_markdown
        { header := some { date := some "", time := none, attendees := [], subject := none },
          topics := [], action_items := [], metanotes := [] }
      = "# Meeting Notes" :=
  ⟨by decide,
   notes_json_to_markdown_empty
     { header := some { date := some "", time := none, attendees := [], subject := none },
       topics := [], action_items := [], metanotes := [] }
     (by decide) rfl rfl rfl⟩

/-! ## Claim C1: interleave_transcripts -/

theorem flatten_transcriptions_nil (transcriptions : List (String × List Seg))
    (h : ∀ p ∈ transcriptions, p.2 = []) : flatten_transcriptions transcriptions = [] := by
  induction transcriptions with
  | nil => rfl
  | cons p ps ih =>
    have hp : p.2 = [] := h p (by simp)
    have hps : ∀ q ∈ ps, q.2 = [] := fun q hq => h q (by simp [hq])
    have hstep : flatten_transcriptions (p :: ps)
        = (p.2.map (fun s =>
            { start := s.start, stop := s.stop, text := s.text, speaker := p.1 }))
          ++ flatten_transcriptions ps := rfl
    rw [hstep, hp, ih hps]
    rfl

/-- Claim C1: interleave_transcripts returns the flattening of all per-speaker
lists (speaker-iteration order, then original per-speaker order) sorted by
start ascending with a stable sort: the output is sorted by start, it is a
permutation of the flattening, any two segments in flattening order with equal
start keep that order in the output, and when every input list is empty (so
also for the empty map) the result is empty.  The model is a pure function,
so the result is deterministic and involves no I/O. -/
theorem interleave_transcripts_spec (transcriptions : List (String × List Seg)) :
    List.Sorted segLE (interleave_transcripts transcriptions)
    ∧ (interleave_transcripts transcriptions).Perm (flatten_transcriptions transcriptions)
    ∧ (∀ a b : Seg, a.start = b.start →
        [a, b].Sublist (flatten_transcriptions transcriptions) →
        [a, b].Sublist (interleave_transcripts transcriptions))
    ∧ ((∀ p ∈ transcriptions, p.2 = []) → interleave_transcripts transcriptions = []) := by
  refine ⟨List.sorted_insertionSort segLE _, List.perm_insertionSort segLE _, ?_, ?_⟩
  · intro a b hab hsub
    exact List.pair_sublist_insertionSort (le_of_eq hab) hsub
  · intro h
    unfold interleave_transcripts
    rw [flatten_transcriptions_nil transcriptions h]
    rfl

theorem interleave_transcripts_spec_witness :
    [({ start := 3, stop := 4, text := "x", speaker := "a" } : Seg),
     { start := 3, stop := 5, text := "y", speaker := "b" }].Sublist
      (interleave_transcripts
        [("a", [{ start := 3, stop := 4, text := "x", speaker := "old1" }]),
         ("b", [{ start := 3, stop := 5, text := "y", speaker := "old2" }])])
    ∧ interleave_transcripts [("a", []), ("b", [])] = [] :=
  ⟨(interleave_transcripts_spec
      [("a", [{ start := 3, stop := 4, text := "x", speaker := "old1" }]),
       ("b", [{ start := 3, stop := 5, text := "y", speaker := "old2" }])]).2.2.1
      { start := 3, stop := 4, text := "x", speaker := "a" }
      { start := 3, stop := 5, text := "y", speaker := "b" }
      rfl (List.Sublist.refl _),
   (interleave_transcripts_spec [("a", []), ("b", [])]).2.2.2 (by decide)⟩

/-! ## Invariants of get_recordings_dict -/

theorem updatePart_mem_values (m : PartMap) (k : Nat) (v : String) :
    ∀ q ∈ updatePart m k v, q.2 = v ∨ q ∈ m := by
  induction m with
  | nil =>
    intro q hq
    simp [updatePart] at hq
    simp [hq]
  | cons kv rest ih =>
    intro q hq
    by_cases h : kv.1 = k
    · simp [updatePart, h] at hq
      rcases hq with hq | hq
      · simp [hq]
      · exact Or.inr (List.mem_cons_of_mem _ hq)
    · simp [updatePart, h] at hq
      rcases hq with hq | hq
      · exact Or.inr (by simp [hq])
      · rcases ih q hq with h2 | h2
        · exact Or.inl h2
        · exact Or.inr (List.mem_cons_of_mem _ h2)

theorem updatePart_keys_mem (m : PartMap) (k : Nat) (v : String) :
    ∀ x ∈ (updatePart m k v).map Prod.fst, x ∈ m.map Prod.fst ∨ x = k := by
  induction m with
  | nil =>
    intro x hx
    simp [updatePart] at hx
    simp [hx]
  | cons kv rest ih =>
    intro x hx
    by_cases h : kv.1 = k
    · simp [updatePart, h] at hx
      rcases hx with hx | hx
      · simp [hx]
      · exact Or.inl (by simp [hx])
    · simp [updatePart, h] at hx
      rcases hx with hx | hx
      · exact Or.inl (by simp [hx])
      · rcases ih x (by simpa using hx) with h2 | h2
        · exact Or.inl (by simp at h2 ⊢; exact Or.inr h2)
        · exact Or.inr h2

theorem updatePart_keys_nodup (m : PartMap) (k : Nat) (v : String)
    (h : (m.map Prod.fst).Nodup) : ((updatePart m k v).map Prod.fst).Nodup := by
  induction m with
  | nil => simp [updatePart]
  | cons kv rest ih =>
    simp only [List.map_cons, List.nodup_cons] at h
    by_cases hk : kv.1 = k
    · subst hk
      have hupd : updatePart (kv :: rest) kv.1 v = (kv.1, v) :: rest := by
        simp [updatePart]
      rw [hupd, List.map_cons, List.nodup_cons]
      exact ⟨h.1, h.2⟩
    · simp only [updatePart, if_neg hk, List.map_cons, List.nodup_cons]
      refine ⟨fun hmem => ?_, ih h.2⟩
      rcases updatePart_keys_mem rest k v kv.1 hmem with h2 | h2
      · exact h.1 h2
      · exact hk h2

theorem updateDict_mem_cases (d : WavDict) (name : String) (dup : Nat) (file : String) :
    ∀ p ∈ updateDict d name dup file,
      p ∈ d ∨ (p.1 = name ∧ p.2 = [(dup, file)])
        ∨ ∃ m, (p.1, m) ∈ d ∧ p.2 = updatePart m dup file := by
  induction d with
  | nil =>
    intro p hp
    simp [updateDict] at hp
    exact Or.inr (Or.inl (by simp [hp]))
  | cons nm rest ih =>
    intro p hp
    by_cases h : nm.1 = name
    · simp only [updateDict, if_pos h] at hp
      rcases List.mem_cons.mp hp with hp | hp
      · exact Or.inr (Or.inr ⟨nm.2, by simp [hp], by simp [hp]⟩)
      · exact Or.inl (List.mem_cons_of_mem _ hp)
    · simp only [updateDict, if_neg h] at hp
      rcases List.mem_cons.mp hp with hp | hp
      · exact Or.inl (by simp [hp])
      · rcases ih p hp with h2 | h2 | h2
        · exact Or.inl (List.mem_cons_of_mem _ h2)
        · exact Or.inr (Or.inl h2)
        · obtain ⟨m, hm1, hm2⟩ := h2
          exact Or.inr (Or.inr ⟨m, List.mem_cons_of_mem _ hm1, hm2⟩)

theorem updateDict_keys_mem (d : WavDict) (name : String) (dup : Nat) (file : String) :
    ∀ x ∈ (updateDict d name dup file).map Prod.fst, x ∈ d.map Prod.fst ∨ x = name := by
  induction d with
  | nil =>
    intro x hx
    simp [updateDict] at hx
    simp [hx]
  | cons nm rest ih =>
    intro x hx
    by_cases h : nm.1 = name
    · simp only [updateDict, if_pos h, List.map_cons] at hx
      rcases List.mem_cons.mp hx with hx | hx
      · exact Or.inl (by simp [hx])
      · exact Or.inl (by rw [List.map_cons]; exact List.mem_cons_of_mem _ hx)
    · simp only [updateDict, if_neg h, List.map_cons] at hx
      rcases List.mem_cons.mp hx with hx | hx
      · exact Or.inl (by simp [hx])
      · rcases ih x (by simpa using hx) with h2 | h2
        · exact Or.inl (by simp at h2 ⊢; exact Or.inr h2)
        · exact Or.inr h2

theorem updateDict_keys_nodup (d : WavDict) (name : String) (dup : Nat) (file : String)
    (h : (d.map Prod.fst).Nodup) : ((updateDict d name dup file).map Prod.fst).Nodup := by
  induction d with
  | nil => simp [updateDict]
  | cons nm rest ih =>
    simp only [List.map_cons, List.nodup_cons] at h
    by_cases hk : nm.1 = name
    · have hupd : updateDict (nm :: rest) name dup file
          = (nm.1, updatePart nm.2 dup file) :: rest := by
        simp [updateDict, hk]
      rw [hupd, List.map_cons, List.nodup_cons]
      exact ⟨h.1, h.2⟩
    · have hupd : updateDict (nm :: rest) name dup file
          = nm :: updateDict rest name dup file := by
        simp [updateDict, hk]
      rw [hupd, List.map_cons, List.nodup_cons]
      refine ⟨fun hmem => ?_, ih h.2⟩
      rcases updateDict_keys_mem rest name dup file nm.1 hmem with h2 | h2
      · exact h.1 h2
      · exact hk h2

theorem grd_step_none (files : List String) :
    files.foldl grd_step none = none := by
  induction files with
  | nil => rfl
  | cons f fs ih => simpa [grd_step] using ih

theorem grd_fold_inv (P : String → Prop) :
    ∀ (files : List String) (d0 d : WavDict),
      files.foldl grd_step (some d0) = some d →
      (∀ f ∈ files, P f) →
      (∀ p ∈ d0, ∀ q ∈ p.2, P q.2) →
      (d0.map Prod.fst).Nodup →
      (∀ p ∈ d0, (p.2.map Prod.fst).Nodup) →
      (∀ p ∈ d, ∀ q ∈ p.2, P q.2) ∧ (d.map Prod.fst).Nodup
        ∧ (∀ p ∈ d, (p.2.map Prod.fst).Nodup)
  | [], d0, d, hfold, _, hv, hk, hi => by
    simp at hfold
    subst hfold
    exact ⟨hv, hk, hi⟩
  | f :: fs, d0, d, hfold, hP, hv, hk, hi => by
    simp only [List.foldl_cons] at hfold
    cases hparse : parse_recording_name (basename f) with
    | none =>
      rw [show grd_step (some d0) f = none by simp [grd_step, hparse]] at hfold
      rw [grd_step_none] at hfold
      exact absurd hfold (by simp)
    | some nd =>
      rw [show grd_step (some d0) f = some (updateDict d0 nd.1 nd.2 f) by
        simp [grd_step, hparse]] at hfold
      refine grd_fold_inv P fs (updateDict d0 nd.1 nd.2 f) d hfold
        (fun g hg => hP g (List.mem_cons_of_mem _ hg)) ?_ ?_ ?_
      · intro p hp q hq
        rcases updateDict_mem_cases d0 nd.1 nd.2 f p hp with h2 | h2 | h2
        · exact hv p h2 q hq
        · rw [h2.2] at hq
          simp at hq
          rw [hq]
          exact hP f (by simp)
        · obtain ⟨m, hm1, hm2⟩ := h2
          rw [hm2] at hq
          rcases updatePart_mem_values m nd.2 f q hq with h3 | h3
          · rw [h3]; exact hP f (by simp)
          · exact hv (p.1, m) hm1 q h3
      · exact updateDict_keys_nodup d0 nd.1 nd.2 f hk
      · intro p hp
        rcases updateDict_mem_cases d0 nd.1 nd.2 f p hp with h2 | h2 | h2
        · exact hi p h2
        · rw [h2.2]; simp
        · obtain ⟨m, hm1, hm2⟩ := h2
          rw [hm2]
          exact updatePart_keys_nodup m nd.2 f (hi (p.1, m) hm1)

theorem get_recordings_dict_inv (wave_files : List String) (d : WavDict)
    (hd : get_recordings_dict wave_files = some d) :
    (∀ p ∈ d, ∀ q ∈ p.2, q.2 ∈ wave_files)
    ∧ (d.map Prod.fst).Nodup
    ∧ (∀ p ∈ d, (p.2.map Prod.fst).Nodup) := by
  unfold get_recordings_dict at hd
  refine grd_fold_inv (fun f => f ∈ wave_files)
    (List.insertionSort py_str_le wave_files) [] d hd ?_ (by simp) (by simp) (by simp)
  intro f hf
  exact (List.perm_insertionSort py_str_le wave_files).mem_iff.mp hf

/-! ## Claim C2: grouping fast path -/

/-- Claim C2: when every speaker group holds exactly one part file,
combine_audio_files returns each speaker mapped to that single original file
path with the filesystem untouched and no external invocation at all (in
particular no ffmpeg concat), and every returned path is one of the input
paths. -/
theorem combine_audio_files_fast_path (fs wav_list : List String) (d : WavDict)
    (hd : get_recordings_dict wav_list = some d)
    (hsingle : ∀ p ∈ d, p.2.length = 1) :
    combine_audio_files fs wav_list
      = some (d.map (fun p => (p.1, wav_dict_single_value p.2)), fs, [])
    ∧ ∀ p ∈ d, wav_dict_single_value p.2 ∈ wav_list := by
  have hall : d.all (fun p => p.2.length == 1) = true := by
    rw [List.all_eq_true]
    intro p hp
    simpa using hsingle p hp
  constructor
  · simp [combine_audio_files, hd, hall]
  · intro p hp
    have hv := (get_recordings_dict_inv wav_list d hd).1 p hp
    have hlen := hsingle p hp
    cases hm : p.2 with
    | nil => rw [hm] at hlen; simp at hlen
    | cons q rest =>
      have hval : wav_dict_single_value (q :: rest) = q.2 := rfl
      rw [hval]
      exact hv q (by rw [hm]; exact List.mem_cons_self q rest)

theorem combine_audio_files_fast_path_witness :
    combine_audio_files [] ["d/audios11123456789.wav", "d/audiot11123456789.wav"]
      = some (([("s", [(1, "d/audios11123456789.wav")]),
                ("t", [(1, "d/audiot11123456789.wav")])] : WavDict).map
                (fun p => (p.1, wav_dict_single_value p.2)), [], [])
    ∧ ∀ p ∈ ([("s", [(1, "d/audios11123456789.wav")]),
              ("t", [(1, "d/audiot11123456789.wav")])] : WavDict),
        wav_dict_single_value p.2
          ∈ ["d/audios11123456789.wav", "d/audiot11123456789.wav"] :=
  combine_audio_files_fast_path [] ["d/audios11123456789.wav", "d/audiot11123456789.wav"]
    [("s", [(1, "d/audios11123456789.wav")]), ("t", [(1, "d/audiot11123456789.wav")])]
    (by decide) (by decide)

/-! ## The combining loop -/

theorem combine_step_eq (folder : String) (m0 : List (String × String))
    (fs0 : List String) (ev0 : List Ev) (p : String × PartMap) :
    combine_step folder (m0, fs0, ev0) p
      = if fs0.contains (combined_file_path folder p.1) then
          (m0 ++ [(p.1, combined_file_path folder p.1)], fs0, ev0)
        else
          (m0 ++ [(p.1, combined_file_path folder p.1)],
           fs0.insert (combined_file_path folder p.1),
           ev0 ++ ((if (sorted_parts p.2).length == 1
                    then [Ev.cp ((sorted_parts p.2).headD "")
                            (combined_file_path folder p.1)]
                    else [])
              ++ [Ev.ffmpeg_concat (sorted_parts p.2)
                    (combined_file_path folder p.1)])) := rfl

theorem combine_fold_mapping (folder : String) :
    ∀ (d : WavDict) (m0 : List (String × String)) (fs0 : List String) (ev0 : List Ev),
      (d.foldl (combine_step folder) (m0, fs0, ev0)).1
        = m0 ++ d.map (fun p => (p.1, combined_file_path folder p.1))
  | [], m0, fs0, ev0 => by simp
  | p :: rest, m0, fs0, ev0 => by
    rw [List.foldl_cons, combine_step_eq]
    by_cases hc : fs0.contains (combined_file_path folder p.1) = true
    · rw [if_pos hc, combine_fold_mapping folder rest]
      simp
    · rw [if_neg hc, combine_fold_mapping folder rest]
      simp

theorem combine_fold_fs_mono (folder : String) :
    ∀ (d : WavDict) (m0 : List (String × String)) (fs0 : List String) (ev0 : List Ev)
      (x : String), x ∈ fs0 → x ∈ (d.foldl (combine_step folder) (m0, fs0, ev0)).2.1
  | [], _, _, _, _, hx => hx
  | p :: rest, m0, fs0, ev0, x, hx => by
    rw [List.foldl_cons, combine_step_eq]
    by_cases hc : fs0.contains (combined_file_path folder p.1) = true
    · rw [if_pos hc]
      exact combine_fold_fs_mono folder rest _ _ _ x hx
    · rw [if_neg hc]
      exact combine_fold_fs_mono folder rest _ _ _ x (List.mem_insert_iff.mpr (Or.inr hx))

theorem combine_fold_ev_mem (folder : String) :
    ∀ (d : WavDict) (m0 : List (String × String)) (fs0 : List String) (ev0 : List Ev)
      (e : Ev), e ∈ ev0 → e ∈ (d.foldl (combine_step folder) (m0, fs0, ev0)).2.2
  | [], _, _, _, _, he => he
  | p :: rest, m0, fs0, ev0, e, he => by
    rw [List.foldl_cons, combine_step_eq]
    by_cases hc : fs0.contains (combined_file_path folder p.1) = true
    · rw [if_pos hc]
      exact combine_fold_ev_mem folder rest _ _ _ e he
    · rw [if_neg hc]
      exact combine_fold_ev_mem folder rest _ _ _ e (List.mem_append_left _ he)

theorem combine_fold_cfp_mem (folder : String) :
    ∀ (d : WavDict) (m0 : List (String × String)) (fs0 : List String) (ev0 : List Ev)
      (p : String × PartMap), p ∈ d →
      combined_file_path folder p.1 ∈ (d.foldl (combine_step folder) (m0, fs0, ev0)).2.1
  | [], _, _, _, p, hp => absurd hp (by simp)
  | q :: rest, m0, fs0, ev0, p, hp => by
    rw [List.foldl_cons, combine_step_eq]
    rcases List.mem_cons.mp hp with hp | hp
    · subst hp
      by_cases hc : fs0.contains (combined_file_path folder p.1) = true
      · rw [if_pos hc]
        exact combine_fold_fs_mono folder rest _ _ _ _ (by simpa using hc)
      · rw [if_neg hc]
        exact combine_fold_fs_mono folder rest _ _ _ _
          (List.mem_insert_iff.mpr (Or.inl rfl))
    · by_cases hc : fs0.contains (combined_file_path folder q.1) = true
      · rw [if_pos hc]
        exact combine_fold_cfp_mem folder rest _ _ _ p hp
      · rw [if_neg hc]
        exact combine_fold_cfp_mem folder rest _ _ _ p hp

theorem combine_fold_skip (folder : String) :
    ∀ (d : WavDict) (m0 : List (String × String)) (fs0 : List String) (ev0 : List Ev),
      (∀ p ∈ d, combined_file_path folder p.1 ∈ fs0) →
      d.foldl (combine_step folder) (m0, fs0, ev0)
        = (m0 ++ d.map (fun p => (p.1, combined_file_path folder p.1)), fs0, ev0)
  | [], m0, fs0, ev0, _ => by simp
  | p :: rest, m0, fs0, ev0, h => by
    rw [List.foldl_cons, combine_step_eq,
      if_pos (by simpa using h p (List.mem_cons_self p rest)),
      combine_fold_skip folder rest _ _ _ (fun q hq => h q (List.mem_cons_of_mem _ hq))]
    simp

theorem combine_audio_files_none (fs wav_list : List String)
    (hd : get_recordings_dict wav_list = none) :
    combine_audio_files fs wav_list = none := by
  unfold combine_audio_files
  rw [hd]

theorem combine_audio_files_eq_some (fs wav_list : List String) (d : WavDict)
    (hd : get_recordings_dict wav_list = some d) :
    combine_audio_files fs wav_list
      = if d.all (fun p => p.2.length == 1) then
          some (d.map (fun p => (p.1, wav_dict_single_value p.2)), fs, [])
        else
          some (d.foldl (combine_step (combine_folder_path wav_list)) ([], fs, [])) := by
  unfold combine_audio_files
  rw [hd]

/-! ## Claim C9: idempotent recombination -/

/-- Claim C9: rerunning combine_audio_files on the same inputs over the
filesystem produced by the first run performs no external invocation at all
(in particular no ffmpeg concat for any speaker, every combined file being
already present) and returns the same speaker-to-path mapping and the same
filesystem. -/
theorem combine_audio_files_idempotent (fs wav_list : List String)
    (m : List (String × String)) (fs1 : List String) (evs : List Ev)
    (h : combine_audio_files fs wav_list = some (m, fs1, evs)) :
    combine_audio_files fs1 wav_list = some (m, fs1, []) := by
  cases hd : get_recordings_dict wav_list with
  | none => rw [combine_audio_files_none fs wav_list hd] at h; exact absurd h (by simp)
  | some d =>
    rw [combine_audio_files_eq_some fs wav_list d hd] at h
    rw [combine_audio_files_eq_some fs1 wav_list d hd]
    by_cases hall : d.all (fun p => p.2.length == 1) = true
    · rw [if_pos hall] at h ⊢
      have h2 := Option.some.inj h
      injection h2 with hm hrest
      injection hrest with hfs hev
      subst hm; subst hfs
      rfl
    · rw [if_neg hall] at h ⊢
      have h2 := Option.some.inj h
      have hmem : ∀ p ∈ d, combined_file_path (combine_folder_path wav_list) p.1 ∈ fs1 := by
        intro p hp
        have h3 := combine_fold_cfp_mem (combine_folder_path wav_list) d [] fs [] p hp
        rw [h2] at h3
        exact h3
      rw [combine_fold_skip (combine_folder_path wav_list) d [] fs1 [] hmem]
      have hm : m = d.map (fun p =>
          (p.1, combined_file_path (combine_folder_path wav_list) p.1)) := by
        have h4 := combine_fold_mapping (combine_folder_path wav_list) d [] fs []
        rw [h2] at h4
        simpa using h4
      rw [hm]
      simp

theorem combine_audio_files_idempotent_witness :
    combine_audio_files ["d/Combined/audios_combined.wav"]
        ["d/audios12123456789.wav", "d/audios11123456789.wav"]
      = some ([("s", "d/Combined/audios_combined.wav")],
              ["d/Combined/audios_combined.wav"], []) :=
  combine_audio_files_idempotent []
    ["d/audios12123456789.wav", "d/audios11123456789.wav"]
    [("s", "d/Combined/audios_combined.wav")]
    ["d/Combined/audios_combined.wav"]
    [Ev.ffmpeg_concat ["d/audios11123456789.wav", "d/audios12123456789.wav"]
      "d/Combined/audios_combined.wav"]
    (by decide)

/-! ## Claim C3: join order -/

theorem find_key_nodup (m : PartMap) (hnd : (m.map Prod.fst).Nodup)
    (q : Nat × String) (hq : q ∈ m) :
    m.find? (fun r => r.1 == q.1) = some q := by
  induction m with
  | nil => cases hq
  | cons r rest ih =>
    rw [List.map_cons, List.nodup_cons] at hnd
    rcases List.mem_cons.mp hq with hq | hq
    · subst hq
      exact List.find?_cons_of_pos rest (by simp)
    · have hne : ¬ ((r.1 == q.1) = true) := by
        simp only [beq_iff_eq]
        intro hcontra
        exact hnd.1 (by rw [hcontra]; exact List.mem_map_of_mem Prod.fst hq)
      rw [List.find?_cons_of_neg rest hne]
      exact ih hnd.2 hq

theorem pick_key_eq (m : PartMap) (hnd : (m.map Prod.fst).Nodup) :
    ∀ x ∈ m.map Prod.fst, ((m.find? (fun q => q.1 == x)).getD (0, "")).1 = x := by
  intro x hx
  obtain ⟨q, hq, rfl⟩ := List.mem_map.mp hx
  rw [find_key_nodup m hnd q hq]
  rfl

theorem sorted_parts_spec (m : PartMap) (hnd : (m.map Prod.fst).Nodup) :
    ∃ parts : PartMap, sorted_parts m = parts.map Prod.snd
      ∧ parts.Perm m ∧ parts.Pairwise (fun a b => a.1 ≤ b.1) := by
  refine ⟨(List.insertionSort (fun a b : Nat => a ≤ b) (m.map Prod.fst)).map
      (fun k => ((m.find? (fun q => q.1 == k)).getD (0, ""))), ?_, ?_, ?_⟩
  · rw [sorted_parts, List.map_map]
    rfl
  · have h1 : (List.insertionSort (fun a b : Nat => a ≤ b) (m.map Prod.fst)).Perm
        (m.map Prod.fst) := List.perm_insertionSort _ _
    have h2 := h1.map (fun k => ((m.find? (fun q => q.1 == k)).getD (0, "")))
    have h3 : (m.map Prod.fst).map
        (fun k => ((m.find? (fun q => q.1 == k)).getD (0, ""))) = m := by
      rw [List.map_map]
      have h4 : ∀ q ∈ m,
          ((fun k => ((m.find? (fun r => r.1 == k)).getD (0, ""))) ∘ Prod.fst) q = id q := by
        intro q hq
        simp only [Function.comp_apply, id_eq]
        rw [find_key_nodup m hnd q hq]
        rfl
      rw [List.map_congr_left h4]
      exact List.map_id m
    rw [h3] at h2
    exact h2
  · have hs : List.Pairwise (fun a b : Nat => a ≤ b)
        (List.insertionSort (fun a b : Nat => a ≤ b) (m.map Prod.fst)) :=
      List.sorted_insertionSort _ _
    rw [List.pairwise_map]
    refine List.Pairwise.imp_of_mem ?_ hs
    intro a b ha hb hab
    have hma : a ∈ m.map Prod.fst := (List.perm_insertionSort _ _).subset ha
    have hmb : b ∈ m.map Prod.fst := (List.perm_insertionSort _ _).subset hb
    rw [pick_key_eq m hnd a hma, pick_key_eq m hnd b hmb]
    exact hab

theorem audio_name_head (n suf : String) :
    (("audio" ++ n) ++ suf).data = 'a' :: (("udio" ++ n) ++ suf).data := by
  have h1 : ("audio" : String).data = ['a', 'u', 'd', 'i', 'o'] := by decide
  have h2 : ("udio" : String).data = ['u', 'd', 'i', 'o'] := by decide
  simp [String.data_append, h1, h2]

theorem path_join_audio (folder n suf : String) :
    path_join folder (("audio" ++ n) ++ suf)
      = if folder.data.isEmpty || (folder.data.getLast? == some '/')
        then folder ++ (("audio" ++ n) ++ suf)
        else folder ++ "/" ++ (("audio" ++ n) ++ suf) := by
  unfold path_join
  rw [audio_name_head]
  have hav : ('a' == '/') = false := by decide
  simp [hav]

theorem combined_file_path_inj (folder n1 n2 : String)
    (h : combined_file_path folder n1 = combined_file_path folder n2) : n1 = n2 := by
  unfold combined_file_path at h
  rw [path_join_audio, path_join_audio] at h
  by_cases hf : (folder.data.isEmpty || (folder.data.getLast? == some '/')) = true
  · rw [if_pos hf, if_pos hf] at h
    have h2 := str_append_cancel_left _ _ _ h
    have h3 := str_append_cancel_right _ _ _ h2
    exact str_append_cancel_left _ _ _ h3
  · rw [if_neg hf, if_neg hf] at h
    have h2 := str_append_cancel_left _ _ _ h
    have h3 := str_append_cancel_right _ _ _ h2
    exact str_append_cancel_left _ _ _ h3

theorem combine_fold_concat_event (folder : String) :
    ∀ (d : WavDict) (m0 : List (String × String)) (fs0 : List String) (ev0 : List Ev)
      (name : String) (mm : PartMap),
      (name, mm) ∈ d →
      (d.map Prod.fst).Nodup →
      combined_file_path folder name ∉ fs0 →
      Ev.ffmpeg_concat (sorted_parts mm) (combined_file_path folder name)
        ∈ (d.foldl (combine_step folder) (m0, fs0, ev0)).2.2
  | [], _, _, _, _, _, hmem, _, _ => absurd hmem (by simp)
  | q :: rest, m0, fs0, ev0, name, mm, hmem, hnd, hfresh => by
    rw [List.foldl_cons, combine_step_eq]
    rw [List.map_cons, List.nodup_cons] at hnd
    rcases List.mem_cons.mp hmem with hq | hq
    · have hq2 := hq.symm
      subst hq2
      have hc : ¬ (fs0.contains (combined_file_path folder (name, mm).1) = true) := by
        intro hc2
        exact hfresh (by simpa using hc2)
      rw [if_neg hc]
      refine combine_fold_ev_mem folder rest _ _ _ _ ?_
      simp
    · have hname : name ≠ q.1 := by
        intro he
        apply hnd.1
        rw [← he]
        exact List.mem_map_of_mem Prod.fst hq
      by_cases hc : fs0.contains (combined_file_path folder q.1) = true
      · rw [if_pos hc]
        exact combine_fold_concat_event folder rest _ _ _ name mm hq hnd.2 hfresh
      · rw [if_neg hc]
        refine combine_fold_concat_event folder rest _ _ _ name mm hq hnd.2 ?_
        intro hmem2
        rcases List.mem_insert_iff.mp hmem2 with h2 | h2
        · exact hname (combined_file_path_inj folder name q.1 h2)
        · exact hfresh h2

/-- Claim C3: for a speaker with several parts (in any run where combining
happens and the cache file is absent), the parts handed to the ffmpeg concat
step are exactly that speaker's part map reordered by ascending duplicate
number, regardless of the order in which the filesystem listed the files. -/
theorem combine_audio_files_join_order (fs wav_list : List String) (d : WavDict)
    (name : String) (mm : PartMap)
    (mp : List (String × String)) (fs1 : List String) (evs : List Ev)
    (hd : get_recordings_dict wav_list = some d)
    (hmem : (name, mm) ∈ d)
    (hmulti : d.all (fun p => p.2.length == 1) = false)
    (hfresh : combined_file_path (combine_folder_path wav_list) name ∉ fs)
    (hrun : combine_audio_files fs wav_list = some (mp, fs1, evs)) :
    ∃ parts : PartMap, parts.Perm mm ∧ parts.Pairwise (fun a b => a.1 ≤ b.1)
      ∧ Ev.ffmpeg_concat (parts.map Prod.snd)
          (combined_file_path (combine_folder_path wav_list) name) ∈ evs := by
  have hinv := get_recordings_dict_inv wav_list d hd
  have hndmm : (mm.map Prod.fst).Nodup := hinv.2.2 (name, mm) hmem
  obtain ⟨parts, hsp, hperm, hpair⟩ := sorted_parts_spec mm hndmm
  refine ⟨parts, hperm, hpair, ?_⟩
  rw [combine_audio_files_eq_some fs wav_list d hd, if_neg (by simp [hmulti])] at hrun
  have hev := combine_fold_concat_event (combine_folder_path wav_list) d [] fs []
    name mm hmem hinv.2.1 hfresh
  rw [Option.some.inj hrun] at hev
  rw [← hsp]
  exact hev

theorem combine_audio_files_join_order_witness :
    (get_recordings_dict ["d/audios12123456789.wav", "d/audios11123456789.wav"]
      = some [("s", [(1, "d/audios11123456789.wav"), (2, "d/audios12123456789.wav")])])
    ∧ (∃ parts : PartMap,
        parts.Perm [(1, "d/audios11123456789.wav"), (2, "d/audios12123456789.wav")]
        ∧ parts.Pairwise (fun a b => a.1 ≤ b.1)
        ∧ Ev.ffmpeg_concat (parts.map Prod.snd)
            (combined_file_path
              (combine_folder_path ["d/audios12123456789.wav", "d/audios11123456789.wav"]) "s")
          ∈ [Ev.ffmpeg_concat ["d/audios11123456789.wav", "d/audios12123456789.wav"]
              "d/Combined/audios_combined.wav"]) :=
  ⟨by decide,
   combine_audio_files_join_order []
     ["d/audios12123456789.wav", "d/audios11123456789.wav"]
     [("s", [(1, "d/audios11123456789.wav"), (2, "d/audios12123456789.wav")])]
     "s" [(1, "d/audios11123456789.wav"), (2, "d/audios12123456789.wav")]
     [("s", "d/Combined/audios_combined.wav")]
     ["d/Combined/audios_combined.wav"]
     [Ev.ffmpeg_concat ["d/audios11123456789.wav", "d/audios12123456789.wav"]
       "d/Combined/audios_combined.wav"]
     (by decide) (by decide) (by decide) (by decide) (by decide)⟩

/-! ## Claim C4: single-part speaker and the external joiner -/

/-- Claim C4 fails on the code (a code bug): a speaker whose group holds
exactly one part, in a run where another speaker has several parts, is still
pushed through the ffmpeg concat invocation.  The single-file branch of
concat_wavs_copy copies the file but does not return, so the concat list is
written and ffmpeg concat runs on the one-element list as well.  Evaluated
directly on concat_wavs_copy and on a full combine run with speakers s (two
parts) and t (one part): the event log records both the cp and an ffmpeg
concat on the single part of t. -/
theorem concat_single_part_still_invokes_ffmpeg :
    (concat_wavs_copy [] ["d/a.wav"] "d/out.wav").2
      = [Ev.cp "d/a.wav" "d/out.wav", Ev.ffmpeg_concat ["d/a.wav"] "d/out.wav"]
    ∧ combine_audio_files []
        ["d/audios12123456789.wav", "d/audios11123456789.wav", "d/audiot11123456789.wav"]
      = some ([("s", "d/Combined/audios_combined.wav"),
               ("t", "d/Combined/audiot_combined.wav")],
              ["d/Combined/audiot_combined.wav", "d/Combined/audios_combined.wav"],
              [Ev.ffmpeg_concat ["d/audios11123456789.wav", "d/audios12123456789.wav"]
                 "d/Combined/audios_combined.wav",
               Ev.cp "d/audiot11123456789.wav" "d/Combined/audiot_combined.wav",
               Ev.ffmpeg_concat ["d/audiot11123456789.wav"] "d/Combined/audiot_combined.wav"])
    ∧ Ev.ffmpeg_concat ["d/audiot11123456789.wav"] "d/Combined/audiot_combined.wav"
        ∈ [Ev.ffmpeg_concat ["d/audios11123456789.wav", "d/audios12123456789.wav"]
             "d/Combined/audios_combined.wav",
           Ev.cp "d/audiot11123456789.wav" "d/Combined/audiot_combined.wav",
           Ev.ffmpeg_concat ["d/audiot11123456789.wav"] "d/Combined/audiot_combined.wav"] :=
  ⟨by decide, by decide, by decide⟩
